import Mathlib

/-!
Shallow embedding of `src/useful.py` (a single-file Python 2 utility
library) and proofs about it.

Python dictionaries are modelled as association lists, Python lists as
Lean lists, exceptions as an `Except` value carrying the raised
exception's class, and the Python 2 exception class hierarchy as an
explicit inductive of the classes relevant to this library together
with its method-resolution-order chains.
-/

namespace Useful

/-- The Python 2 exception classes relevant to `useful.py`: the classes it
names (`SystemExit`, `Exception`, `LookupError`, `StopIteration`,
`ZeroDivisionError`) together with their ancestors and the standard
subclasses exercised by its doctests. -/
inductive PyClass where
  | BaseException
  | SystemExit
  | KeyboardInterrupt
  | GeneratorExit
  | Exception
  | StandardError
  | StopIteration
  | LookupError
  | KeyError
  | IndexError
  | ArithmeticError
  | ZeroDivisionError
  | ValueError
  deriving DecidableEq, Repr

/-- The method resolution order of each class: the class itself followed by
its ancestors up to `BaseException`, as in the Python 2.6+ hierarchy
(`SystemExit`, `KeyboardInterrupt`, `GeneratorExit` sit directly under
`BaseException`, outside `Exception`). -/
def PyClass.mro : PyClass → List PyClass
  | .BaseException => [.BaseException]
  | .SystemExit => [.SystemExit, .BaseException]
  | .KeyboardInterrupt => [.KeyboardInterrupt, .BaseException]
  | .GeneratorExit => [.GeneratorExit, .BaseException]
  | .Exception => [.Exception, .BaseException]
  | .StandardError => [.StandardError, .Exception, .BaseException]
  | .StopIteration => [.StopIteration, .Exception, .BaseException]
  | .LookupError => [.LookupError, .StandardError, .Exception, .BaseException]
  | .KeyError => [.KeyError, .LookupError, .StandardError, .Exception, .BaseException]
  | .IndexError => [.IndexError, .LookupError, .StandardError, .Exception, .BaseException]
  | .ArithmeticError => [.ArithmeticError, .StandardError, .Exception, .BaseException]
  | .ZeroDivisionError => [.ZeroDivisionError, .ArithmeticError, .StandardError, .Exception, .BaseException]
  | .ValueError => [.ValueError, .StandardError, .Exception, .BaseException]

/-- A raised Python exception: its (dynamic) class and a payload standing
for its arguments. -/
structure PyExn where
  cls : PyClass
  payload : Nat
  deriving DecidableEq, Repr

/-- Python's `isinstance(exn, c)`: the exception's class is `c` or a
subclass of `c`, i.e. `c` occurs in the class's method resolution order. -/
def isinstance (exn : PyExn) (c : PyClass) : Bool :=
  exn.cls.mro.contains c

/-- A Python computation that either returns a value or raises an
exception. A deferred computation (zero-argument callable) is a function
out of `Unit` into this type. -/
abbrev PyResult (α : Type _) := Except PyExn α

/-- Embedding of `maybe(f, default=None, exceptions=[])` from
`src/useful.py` lines 61-80:

```
try:
    return f()
except SystemExit:
    raise
except Exception as exn:
    if any([isinstance(exn, e) for e in exceptions]):
        return default
    else:
        raise exn
```

An uncaught exception (one matching neither `except` clause) propagates;
the result is the returned value or the propagated exception. -/
def maybe (f : Unit → PyResult α) (default : α) (exceptions : List PyClass) :
    PyResult α :=
  match f () with
  | .ok v => .ok v
  | .error exn =>
    if isinstance exn .SystemExit then
      .error exn
    else if isinstance exn .Exception then
      if exceptions.any (fun e => isinstance exn e) then
        .ok default
      else
        .error exn
    else
      .error exn

/-- Embedding of `maybe_get(f_dict, default=None)` from `src/useful.py`
lines 40-59: `return maybe(f_dict, default, [LookupError])`. -/
def maybe_get (f_dict : Unit → PyResult α) (default : α) : PyResult α :=
  maybe f_dict default [.LookupError]

/-- A Python dictionary, modelled as an association list; a well-formed
dictionary has pairwise-distinct keys. -/
abbrev Dict (K V : Type _) := List (K × V)

/-- Python's `d.keys()`. -/
def Dict.keys (d : Dict K V) : List K := d.map Prod.fst

/-- Python's `d.get(k, default)`: the value bound to `k`, or `default`
when `k` is absent. -/
def Dict.get [DecidableEq K] (d : Dict K V) (k : K) (default : V) : V :=
  match d.find? (fun p => p.1 = k) with
  | some p => p.2
  | none => default

/-- Embedding of `union_with(mempty, mappend, d1, d2)` from
`src/useful.py` lines 19-38:

```
return {key : mappend(d1.get(key, mempty), d2.get(key, mempty))
        for key in set(d1.keys() + d2.keys())}
```

`set(d1.keys() + d2.keys())` is modelled as deduplicating the
concatenated key lists (the set's iteration order is unspecified). -/
def union_with [DecidableEq K] (mempty : V) (mappend : V → V → V)
    (d1 d2 : Dict K V) : Dict K V :=
  ((d1.keys ++ d2.keys).dedup).map
    (fun key => (key, mappend (d1.get key mempty) (d2.get key mempty)))

/-- Embedding of `safe_reverse(xs)` from `src/useful.py` lines 89-92:
copies the sequence and reverses the copy. -/
def safe_reverse (xs : List α) : List α := xs.reverse

/-- Embedding of `zipWith(f, xs, ys)` from `src/useful.py` lines 95-96:

```
def zipWith(f, xs, ys):
    map(f, xs, ys)
```

The `map` call builds the list of pairwise applications, but the function
body has no `return`, so the built list is discarded and the call returns
`None` (modelled as `none`). -/
def zipWith (f : α → β → γ) (xs : List α) (ys : List β) : Option γ :=
  (fun _ => none) (List.zipWith f xs ys)

/-- Python's `xs * n` on a list: `n` concatenated copies of `xs` for
positive `n`, the empty list for `n <= 0`. -/
def pyListMul (xs : List α) (n : Int) : List α :=
  (List.replicate n.toNat xs).flatten

/-- Embedding of `replicate(n, x)` from `src/useful.py` lines 111-124:
`return [x] * n`. -/
def replicate (n : Int) (x : α) : List α :=
  pyListMul [x] n

/-- Python's `itemsIter.next()` on an iterator holding the elements `xs`:
raises `StopIteration` when exhausted, otherwise yields the next element
and the advanced iterator. -/
def pyNext (xs : List α) : PyResult (α × List α) :=
  match xs with
  | [] => .error ⟨.StopIteration, 0⟩
  | x :: rest => .ok (x, rest)

/-- Python's `x == i0` where `i0` is either an element or `None`
(comparing a non-`None` value to `None` with `==` yields `False`);
`eq` is the host equality operator on elements. -/
def pyEqOpt (eq : α → α → Bool) (x : α) : Option α → Bool
  | some v => eq x v
  | none => false

/-- Embedding of `all_same(items)` from `src/useful.py` lines 127-146:

```
itemsIter = iter(items)
i0 = maybe(lambda: itemsIter.next(), exceptions=[StopIteration])
return all(x == i0 for x in itemsIter)
```

`i0` is the first element, or `None` (modelled as `none`) when the
iterator is empty and `maybe` converts the `StopIteration` to the
default; the `all` then runs over the already-advanced iterator, i.e.
over the remaining elements. The `maybe` call never propagates an
exception (`pyNext` only raises `StopIteration`, which is suppressed),
so the `.error` fallback below is unreachable. -/
def all_same (eq : α → α → Bool) (items : List α) : Bool :=
  let i0 : Option α :=
    match maybe (fun _ => (pyNext items).map (fun p => some p.1))
        none [.StopIteration] with
    | .ok v => v
    | .error _ => none
  (items.tail).all (fun x => pyEqOpt eq x i0)

/-- The length of the shortest row of `m` (`0` when `m` has no rows):
the number of tuples Python's `zip(*m)` produces. -/
def minRowLen (m : List (List α)) : Nat :=
  match m with
  | [] => 0
  | r :: rs => (rs.map List.length).foldl min r.length

/-- Python 2's `zip(*m)`: the list of tuples
`(m[0][j], ..., m[k-1][j])` for `j` below the shortest row's length.
`zip()` with no arguments gives `[]`, and when some row is empty so is
the result; otherwise the first row's head serves as the (never used)
fallback element for the in-range indexing. -/
def pyZip : List (List α) → List (List α)
  | [] => []
  | [] :: _ => []
  | (x :: xs) :: rs =>
    (List.range (minRowLen ((x :: xs) :: rs))).map
      (fun j => ((x :: xs) :: rs).map (fun row => row.getD j x))

/-- Embedding of `transpose(m)` from `src/useful.py` lines 149-150:
`return zip(*m)`. -/
def transpose (m : List (List α)) : List (List α) := pyZip m

/-- Embedding of `all_nones(xs)` from `src/useful.py` lines 152-165:
`return all(x == None for x in xs)`, over an `Option`-valued list where
`none` models `None`. -/
def all_nones (xs : List (Option α)) : Bool :=
  xs.all (fun x => x.isNone)

/-- Embedding of `update_list(xs, index, new_x)` from `src/useful.py`
lines 167-188:

```
new_xs = list(xs)
new_xs[index] = new_x
return new_xs
```

Python list-item assignment resolves a negative index by adding the
length, then raises `IndexError` unless the resolved index addresses an
existing element. -/
def update_list (xs : List α) (index : Int) (new_x : α) :
    PyResult (List α) :=
  let resolved : Int := if index < 0 then index + xs.length else index
  if 0 ≤ resolved ∧ resolved < xs.length then
    .ok (xs.set resolved.toNat new_x)
  else
    .error ⟨.IndexError, 0⟩

/-- Embedding of `concat(xss)` from `src/useful.py` lines 190-201:
`return reduce(lambda x1, x2: x1 + x2, xss, [])`. -/
def concat (xss : List (List α)) : List α :=
  xss.foldl (fun x1 x2 => x1 ++ x2) []

/-- No class is simultaneously inside the `Exception` hierarchy and the
`SystemExit` hierarchy. -/
theorem not_isinstance_SystemExit_of_isinstance_Exception (exn : PyExn)
    (h : isinstance exn .Exception = true) :
    isinstance exn .SystemExit = false := by
  obtain ⟨c, p⟩ := exn
  cases c <;> simp_all [isinstance, PyClass.mro, List.contains]

/-- C2 (counterexample): the claim says that whenever the raised error's
kind matches a tag in the `exceptions` set, `maybe` returns the default;
but for `f` raising `KeyboardInterrupt` with
`exceptions = [KeyboardInterrupt]` — a match by type identity — the code
propagates the error instead of returning the default `0`, because the
`except Exception` handler never catches an exception outside the
`Exception` hierarchy. -/
theorem maybe_claim_counterexample :
    maybe (fun _ => (.error ⟨.KeyboardInterrupt, 0⟩ : PyResult Nat)) 0
        [.KeyboardInterrupt]
      = .error ⟨.KeyboardInterrupt, 0⟩ ∧
    maybe (fun _ => (.error ⟨.KeyboardInterrupt, 0⟩ : PyResult Nat)) 0
        [.KeyboardInterrupt]
      ≠ .ok 0 := by
  constructor
  · rfl
  · intro h
    simp [maybe, isinstance, PyClass.mro, List.contains] at h

/-- Case analysis of `maybe`: a normal completion passes through, an
`Exception`-hierarchy error matching a listed tag becomes the default,
and any other raised error propagates unchanged. -/
theorem maybe_cases (f : Unit → PyResult α) (default : α)
    (exceptions : List PyClass) :
    (∀ v, f () = .ok v → maybe f default exceptions = .ok v) ∧
    (∀ e, f () = .error e → isinstance e .Exception = true →
      exceptions.any (fun c => isinstance e c) = true →
      maybe f default exceptions = .ok default) ∧
    (∀ e, f () = .error e →
      (isinstance e .Exception = false ∨
        exceptions.any (fun c => isinstance e c) = false) →
      maybe f default exceptions = .error e) := by
  refine ⟨?_, ?_, ?_⟩
  · intro v hv
    simp [maybe, hv]
  · intro e he hexc hany
    have hse := not_isinstance_SystemExit_of_isinstance_Exception e hexc
    simp [maybe, he, hse, hexc, hany]
  · intro e he hcase
    rcases hcase with hexc | hany
    · have hse : isinstance e .SystemExit = true ∨
          isinstance e .SystemExit = false := by
        cases h : isinstance e .SystemExit
        · exact Or.inr rfl
        · exact Or.inl rfl
      rcases hse with hse | hse <;> simp [maybe, he, hse, hexc]
    · cases hse : isinstance e .SystemExit <;>
        cases hexc : isinstance e .Exception <;>
        simp [maybe, he, hse, hexc, hany]

/-- C2 (amended): `maybe(f, default, exceptions)` invokes `f` once and
returns its result if it completes normally; if `f` raises an error in
the ordinary `Exception` hierarchy whose kind matches (by type identity
or subtype relationship) some tag in `exceptions`, it returns the
default; if `f` raises an error matching no tag, or an error outside the
ordinary `Exception` hierarchy, that error propagates unchanged. -/
theorem maybe_spec (f : Unit → PyResult α) (default : α)
    (exceptions : List PyClass) :
    (∀ v, f () = .ok v → maybe f default exceptions = .ok v) ∧
    (∀ e, f () = .error e → isinstance e .Exception = true →
      exceptions.any (fun c => isinstance e c) = true →
      maybe f default exceptions = .ok default) ∧
    (∀ e, f () = .error e →
      (isinstance e .Exception = false ∨
        exceptions.any (fun c => isinstance e c) = false) →
      maybe f default exceptions = .error e) :=
  maybe_cases f default exceptions

/-- C2 (witness): concrete instances of `maybe_spec`: a normal
completion returns its value, a listed `ZeroDivisionError` is converted
to the default, and an unlisted `ValueError` propagates. -/
theorem maybe_spec_witness :
    maybe (fun _ => (.ok 200 : PyResult Nat)) 0 [.ZeroDivisionError]
      = .ok 200 ∧
    maybe (fun _ => (.error ⟨.ZeroDivisionError, 0⟩ : PyResult Nat)) 0
        [.ZeroDivisionError] = .ok 0 ∧
    maybe (fun _ => (.error ⟨.ValueError, 7⟩ : PyResult Nat)) 0
        [.ZeroDivisionError] = .error ⟨.ValueError, 7⟩ := by
  refine ⟨?_, ?_, ?_⟩
  · exact (maybe_spec _ 0 _).1 200 rfl
  · exact (maybe_spec _ 0 _).2.1 ⟨.ZeroDivisionError, 0⟩ rfl (by decide)
      (by decide)
  · exact (maybe_spec _ 0 _).2.2 ⟨.ValueError, 7⟩ rfl (Or.inr (by decide))

/-- C3: if the deferred computation raises `SystemExit` (or a subclass),
`maybe` re-raises it, even when `SystemExit` is a member of the
exceptions set; it is never converted to the default value. -/
theorem maybe_systemExit_propagates (f : Unit → PyResult α) (default : α)
    (exceptions : List PyClass) (e : PyExn) (he : f () = .error e)
    (hse : isinstance e .SystemExit = true) :
    maybe f default exceptions = .error e := by
  simp [maybe, he, hse]

/-- C3 (witness): `maybe` at a computation raising `SystemExit` with
`SystemExit` itself in the exceptions set still propagates the error. -/
theorem maybe_systemExit_propagates_witness :
    maybe (fun _ => (.error ⟨.SystemExit, 0⟩ : PyResult Nat)) 42
        [.SystemExit, .ZeroDivisionError]
      = .error ⟨.SystemExit, 0⟩ :=
  maybe_systemExit_propagates _ 42 _ ⟨.SystemExit, 0⟩ rfl (by decide)

/-- C10: if the deferred computation raises an error outside the
ordinary `Exception` hierarchy (a `BaseException` that is not an
`Exception`, e.g. `KeyboardInterrupt` or `GeneratorExit`), `maybe`
propagates it even when its kind is listed in the exceptions set: the
suppression check is only reached for errors in the `Exception`
hierarchy. -/
theorem maybe_nonException_propagates (f : Unit → PyResult α)
    (default : α) (exceptions : List PyClass) (e : PyExn)
    (he : f () = .error e) (hexc : isinstance e .Exception = false) :
    maybe f default exceptions = .error e := by
  cases hse : isinstance e .SystemExit <;> simp [maybe, he, hse, hexc]

/-- C10 (witness): a raised `GeneratorExit` propagates through `maybe`
even though `GeneratorExit` is listed in the exceptions set. -/
theorem maybe_nonException_propagates_witness :
    maybe (fun _ => (.error ⟨.GeneratorExit, 3⟩ : PyResult Nat)) 0
        [.GeneratorExit]
      = .error ⟨.GeneratorExit, 3⟩ :=
  maybe_nonException_propagates _ 0 _ ⟨.GeneratorExit, 3⟩ rfl (by decide)

/-- C4: `maybe_get(f, default)` returns exactly the same result as
`maybe(f, default, [LookupError])`: it returns `f`'s value on normal
completion, the default when `f` raises a lookup failure (`LookupError`
or a subclass such as `KeyError` or `IndexError`), and propagates every
other error. -/
theorem maybe_get_spec (f : Unit → PyResult α) (default : α) :
    maybe_get f default = maybe f default [.LookupError] ∧
    (∀ v, f () = .ok v → maybe_get f default = .ok v) ∧
    (∀ e, f () = .error e → isinstance e .LookupError = true →
      maybe_get f default = .ok default) ∧
    (∀ e, f () = .error e → isinstance e .LookupError = false →
      maybe_get f default = .error e) := by
  refine ⟨rfl, ?_, ?_, ?_⟩
  · intro v hv
    exact (maybe_cases f default [.LookupError]).1 v hv
  · intro e he hl
    have hexc : isinstance e .Exception = true := by
      obtain ⟨c, p⟩ := e
      cases c <;> simp_all [isinstance, PyClass.mro, List.contains]
    refine (maybe_cases f default [.LookupError]).2.1 e he hexc ?_
    simp [List.any, hl]
  · intro e he hl
    refine (maybe_cases f default [.LookupError]).2.2 e he (Or.inr ?_)
    simp [List.any, hl]

/-- C4 (witness): a failed key lookup (`KeyError`, a `LookupError`
subclass) yields the default through `maybe_get`, a successful lookup
yields its value, and a `ZeroDivisionError` propagates. -/
theorem maybe_get_spec_witness :
    maybe_get (fun _ => (.error ⟨.KeyError, 0⟩ : PyResult Nat)) 0
      = .ok 0 ∧
    maybe_get (fun _ => (.ok 42 : PyResult Nat)) 0 = .ok 42 ∧
    maybe_get (fun _ => (.error ⟨.ZeroDivisionError, 0⟩ : PyResult Nat)) 0
      = .error ⟨.ZeroDivisionError, 0⟩ := by
  refine ⟨?_, ?_, ?_⟩
  · exact (maybe_get_spec _ 0).2.2.1 ⟨.KeyError, 0⟩ rfl (by decide)
  · exact (maybe_get_spec _ 0).2.1 42 rfl
  · exact (maybe_get_spec _ 0).2.2.2 ⟨.ZeroDivisionError, 0⟩ rfl (by decide)

/-- C6: `zipWith(f, xs, ys)` returns the absence sentinel `None`
unconditionally: the list of pairwise applications is built and
discarded, since the function body has no `return`. -/
theorem zipWith_eq_none (f : α → β → γ) (xs : List α) (ys : List β) :
    zipWith f xs ys = none := rfl

/-- Flattening `k` copies of the one-element list `[x]` gives `k` copies
of `x`. -/
theorem flatten_replicate_singleton (k : Nat) (x : α) :
    (List.replicate k [x]).flatten = List.replicate k x := by
  induction k with
  | zero => rfl
  | succ k ih => simp [List.replicate_succ, ih]

/-- C7: `replicate(n, x)` returns a sequence of length `max(n, 0)` in
which every element equals `x`; negative or zero `n` yields the empty
sequence. -/
theorem replicate_spec (n : Int) (x : α) :
    (replicate n x).length = (max n 0).toNat ∧
    (∀ y, y ∈ replicate n x → y = x) ∧
    (n ≤ 0 → replicate n x = []) := by
  have hrepl : replicate n x = List.replicate n.toNat x :=
    flatten_replicate_singleton n.toNat x
  refine ⟨?_, ?_, ?_⟩
  · rw [hrepl, List.length_replicate]
    omega
  · intro y hy
    rw [hrepl] at hy
    exact List.eq_of_mem_replicate hy
  · intro hn
    rw [hrepl]
    have : n.toNat = 0 := by omega
    simp [this]

/-- C7 (witness): `replicate_spec` at `n = 3`, `x = 9` (length `3`, the
member `9` equals `9`) and at `n = -2` (empty result). -/
theorem replicate_spec_witness :
    (replicate 3 (9 : Nat)).length = ((max 3 0 : Int)).toNat ∧
    (9 : Nat) ∈ replicate 3 (9 : Nat) ∧
    ((9 : Nat) ∈ replicate 3 (9 : Nat) → (9 : Nat) = 9) ∧
    replicate (-2) (9 : Nat) = [] := by
  refine ⟨(replicate_spec 3 9).1, by decide, ?_, ?_⟩
  · intro hm
    exact (replicate_spec 3 9).2.1 9 hm
  · exact (replicate_spec (-2) 9).2.2 (by decide)

/-- C5: `update_list(xs, i, v)`: when the index `i` (negative indices
counted from the end) resolves to an existing position, the result is a
new sequence of the same length agreeing with `xs` everywhere except the
resolved position, which holds `v`; otherwise (including every `i` on an
empty `xs`, and `i = len(xs)`) it raises `IndexError`. -/
theorem update_list_spec (xs : List α) (i : Int) (v : α) :
    (∀ r : Int, r = (if i < 0 then i + xs.length else i) →
      0 ≤ r → r < xs.length →
      ∃ ys, update_list xs i v = .ok ys ∧
        ys.length = xs.length ∧
        ys[r.toNat]? = some v ∧
        ∀ j : Nat, j ≠ r.toNat → ys[j]? = xs[j]?) ∧
    (∀ r : Int, r = (if i < 0 then i + xs.length else i) →
      ¬ (0 ≤ r ∧ r < xs.length) →
      update_list xs i v = .error ⟨.IndexError, 0⟩) := by
  constructor
  · intro r hr h0 hlt
    refine ⟨xs.set r.toNat v, ?_, ?_, ?_, ?_⟩
    · simp only [update_list, ← hr]
      rw [if_pos ⟨h0, hlt⟩]
    · exact xs.length_set r.toNat v
    · have : r.toNat < xs.length := by omega
      simp [List.getElem?_set, this]
    · intro j hj
      simp [List.getElem?_set, hj, Ne.symm hj]
  · intro r hr hout
    simp only [update_list, ← hr]
    rw [if_neg hout]

/-- C5 (witness): `update_list_spec` at `xs = [1,2,3]`, `i = -1`
(resolves to position `2`: result `[1,2,42]`) and at `i = 3` = `len(xs)`
(raises `IndexError`). -/
theorem update_list_spec_witness :
    (∃ ys, update_list [1, 2, 3] (-1) (42 : Nat) = .ok ys ∧
      ys.length = ([1, 2, 3] : List Nat).length ∧
      ys[(Int.toNat 2)]? = some 42 ∧
      ∀ j : Nat, j ≠ Int.toNat 2 → ys[j]? = ([1, 2, 3] : List Nat)[j]?) ∧
    update_list [1, 2, 3] 3 (42 : Nat) = .error ⟨.IndexError, 0⟩ := by
  constructor
  · exact (update_list_spec [1, 2, 3] (-1) 42).1 2 (by decide) (by decide)
      (by decide)
  · exact (update_list_spec [1, 2, 3] 3 42).2 3 (by decide) (by decide)

/-- C9 (counterexample): with the host equality
`eq a b := (0 < a + b)` — a legal Python `==`, which need not be
reflexive — `all_same eq [0, 1]` returns `true` although the element `0`
is not host-equal to the first element `0` (`eq 0 0 = false`), so the
result is not "true iff every element of `xs` is value-equal to the
first element": the code never compares the first element against
itself. -/
theorem all_same_claim_counterexample :
    all_same (fun a b : Nat => decide (0 < a + b)) [0, 1] = true ∧
    List.all [0, 1] (fun y => (fun a b : Nat => decide (0 < a + b)) y 0)
      = false := by
  constructor
  · rfl
  · rfl

/-- C9 (amended): `all_same eq xs` is `true` for empty `xs`, and for
nonempty `xs` it is `true` iff every element after the first is
host-equal (`eq`, with the element as the left operand) to the first
element; in particular it is `true` for singletons, and when `eq` is
reflexive this coincides with every element of `xs` being equal to the
first. -/
theorem all_same_spec (eq : α → α → Bool) (items : List α) :
    all_same eq items =
      match items with
      | [] => true
      | i0 :: rest => rest.all (fun x => eq x i0) := by
  cases items with
  | nil => rfl
  | cons i0 rest => rfl

/-- C1: `union_with(mempty, mappend, d1, d2)` is a mapping (its keys are
pairwise distinct) binding exactly the keys of `d1` and `d2`, and
binding each key `k` to `mappend v1 v2`, where `v1` is `d1`'s value at
`k` (else `mempty`) and `v2` is `d2`'s value at `k` (else `mempty`):
`d1`'s value is always `mappend`'s first argument. -/
theorem union_with_spec [DecidableEq K] (mempty : V) (mappend : V → V → V)
    (d1 d2 : Dict K V) :
    (Dict.keys (union_with mempty mappend d1 d2)).Nodup ∧
    (∀ k v, (k, v) ∈ union_with mempty mappend d1 d2 ↔
      ((k ∈ Dict.keys d1 ∨ k ∈ Dict.keys d2) ∧
        v = mappend (Dict.get d1 k mempty) (Dict.get d2 k mempty))) := by
  constructor
  · have hkeys : Dict.keys (union_with mempty mappend d1 d2)
        = (Dict.keys d1 ++ Dict.keys d2).dedup := by
      simp [union_with, Dict.keys, List.map_map, Function.comp_def]
    rw [hkeys]
    exact List.nodup_dedup _
  · intro k v
    simp only [union_with, List.mem_map, List.mem_dedup, List.mem_append]
    constructor
    · rintro ⟨a, ha, hg⟩
      injection hg with h1 h2
      subst h1
      exact ⟨ha, h2.symm⟩
    · rintro ⟨hk, rfl⟩
      exact ⟨k, hk, rfl⟩

/-- C1 (witness): `union_with_spec` applied to the spec's concrete
scenario (keys renamed `a,b,c,d` to `1,2,3,4`):
`union_with 0 (+) {1:3, 2:2, 4:0} {1:42, 2:12, 3:4}` binds `4` to `0`
(key only in `d1`: `0 + 0`) and `1` to `45` (`3 + 42`), with
duplicate-free keys. -/
theorem union_with_spec_witness :
    ((4, 0) ∈ union_with 0 (fun x y : Nat => x + y)
      [(1, 3), (2, 2), (4, 0)] [(1, 42), (2, 12), (3, 4)]) ∧
    ((1, 45) ∈ union_with 0 (fun x y : Nat => x + y)
      [(1, 3), (2, 2), (4, 0)] [(1, 42), (2, 12), (3, 4)]) ∧
    (Dict.keys (union_with 0 (fun x y : Nat => x + y)
      [(1, 3), (2, 2), (4, 0)] [(1, 42), (2, 12), (3, 4)])).Nodup := by
  refine ⟨?_, ?_, (union_with_spec 0 _ _ _).1⟩
  · exact ((union_with_spec 0 _ _ _).2 4 0).mpr ⟨by decide, by decide⟩
  · exact ((union_with_spec 0 _ _ _).2 1 45).mpr ⟨by decide, by decide⟩

/-- Folding `min` over a list never exceeds the initial value. -/
theorem foldl_min_le_init (l : List Nat) (a : Nat) : l.foldl min a ≤ a := by
  induction l generalizing a with
  | nil => exact le_refl a
  | cons c l ih => exact le_trans (ih (min a c)) (min_le_left a c)

/-- Folding `min` over a list never exceeds any member. -/
theorem foldl_min_le_mem :
    ∀ (l : List Nat) (a b : Nat), b ∈ l → l.foldl min a ≤ b
  | [], _, b, hb => absurd hb (List.not_mem_nil b)
  | c :: l, a, b, hb => by
    rcases List.mem_cons.mp hb with rfl | hb'
    · exact le_trans (foldl_min_le_init l (min a b)) (min_le_right a b)
    · exact foldl_min_le_mem l (min a c) b hb'

/-- Folding `min` over a list yields the initial value or a member. -/
theorem foldl_min_eq_init_or_mem :
    ∀ (l : List Nat) (a : Nat), l.foldl min a = a ∨ l.foldl min a ∈ l
  | [], _ => Or.inl rfl
  | c :: l, a => by
    show l.foldl min (min a c) = a ∨ l.foldl min (min a c) ∈ c :: l
    rcases foldl_min_eq_init_or_mem l (min a c) with h | h
    · rw [h]
      rcases le_total a c with hac | hca
      · exact Or.inl (min_eq_left hac)
      · exact Or.inr (by rw [min_eq_right hca]; exact List.mem_cons_self c l)
    · exact Or.inr (List.mem_cons_of_mem c h)

/-- The shortest-row length bounds every row's length. -/
theorem minRowLen_le_length (m : List (List α)) (row : List α)
    (hrow : row ∈ m) : minRowLen m ≤ row.length := by
  cases m with
  | nil => exact absurd hrow (List.not_mem_nil row)
  | cons r rs =>
    rcases List.mem_cons.mp hrow with rfl | h
    · exact foldl_min_le_init _ _
    · exact foldl_min_le_mem _ _ _ (List.mem_map_of_mem List.length h)

/-- A nonempty list of rows has a row of the shortest-row length. -/
theorem minRowLen_is_row (m : List (List α)) (hm : m ≠ []) :
    ∃ row, row ∈ m ∧ row.length = minRowLen m := by
  cases m with
  | nil => exact absurd rfl hm
  | cons r rs =>
    rcases foldl_min_eq_init_or_mem (rs.map List.length) r.length with h | h
    · exact ⟨r, List.mem_cons_self r rs, h.symm⟩
    · obtain ⟨row, hrow, hlen⟩ := List.mem_map.mp h
      exact ⟨row, List.mem_cons_of_mem r hrow, hlen⟩

/-- With an empty first row, the shortest-row length is `0`. -/
theorem minRowLen_nil_cons (rs : List (List α)) :
    minRowLen ([] :: rs) = 0 :=
  Nat.le_zero.mp (foldl_min_le_init (rs.map List.length) 0)

/-- The `j`-th tuple produced by `zip(*m)` (for `j` below the shortest
row's length) collects the `j`-th element of every row. -/
theorem transpose_getD (x : α) (xs : List α) (rs : List (List α)) (j : Nat)
    (hj : j < minRowLen ((x :: xs) :: rs)) :
    (transpose ((x :: xs) :: rs)).getD j []
      = ((x :: xs) :: rs).map (fun row => row.getD j x) := by
  simp [transpose, pyZip, List.getD_eq_getElem?_getD, List.getElem?_range hj]

/-- C8: `transpose(m)` has exactly as many rows ("columns" of `m`) as
`m`'s shortest row is long (zip-style truncation; `0` when `m` is
empty), each produced column lists one entry per row of `m`, and entry
`transpose(m)[j][i]` equals `m[i][j]` for every row index `i` of `m` and
column index `j` below the shortest-row length. -/
theorem transpose_spec (m : List (List α)) :
    ((transpose m).length = minRowLen m) ∧
    (∀ row, row ∈ m → minRowLen m ≤ row.length) ∧
    (m ≠ [] → ∃ row, row ∈ m ∧ row.length = minRowLen m) ∧
    (∀ j, j < minRowLen m → ((transpose m).getD j []).length = m.length) ∧
    (∀ (d : α) (i j : Nat), i < m.length → j < minRowLen m →
      ((transpose m).getD j []).getD i d = (m.getD i []).getD j d) := by
  refine ⟨?_, minRowLen_le_length m, minRowLen_is_row m, ?_, ?_⟩
  · cases m with
    | nil => rfl
    | cons r rs =>
      cases r with
      | nil => simp [transpose, pyZip, minRowLen_nil_cons]
      | cons x xs => simp [transpose, pyZip]
  · intro j hj
    cases m with
    | nil => simp [minRowLen] at hj
    | cons r rs =>
      cases r with
      | nil => rw [minRowLen_nil_cons] at hj; omega
      | cons x xs =>
        rw [transpose_getD x xs rs j hj]
        simp
  · intro d i j hi hj
    cases m with
    | nil => simp [minRowLen] at hj
    | cons r rs =>
      cases r with
      | nil => rw [minRowLen_nil_cons] at hj; omega
      | cons x xs =>
        rw [transpose_getD x xs rs j hj]
        have hjrow : j < ((x :: xs) :: rs)[i].length :=
          lt_of_lt_of_le hj
            (minRowLen_le_length _ _ (List.getElem_mem hi))
        have hmap : i < (((x :: xs) :: rs).map
            (fun row => row.getD j x)).length := by
          simpa using hi
        rw [List.getD_eq_getElem _ d hmap, List.getElem_map,
          List.getD_eq_getElem _ [] hi,
          List.getD_eq_getElem _ x hjrow, List.getD_eq_getElem _ d hjrow]

/-- C8 (witness): `transpose_spec` at the spec's concrete scenario
`transpose [[1,2,3],[4,5,6]]`: two rows of length three transpose to
three columns of length two, with `result[2][1] = m[1][2] = 6`, and the
full result is `[[1,4],[2,5],[3,6]]`. -/
theorem transpose_spec_witness :
    (transpose [[1, 2, 3], [4, 5, 6]]).length
      = minRowLen [[1, 2, 3], [4, 5, 6]] ∧
    ((transpose [[1, 2, 3], [4, 5, 6]]).getD 2 []).getD 1 0
      = (([[1, 2, 3], [4, 5, 6]] : List (List Nat)).getD 1 []).getD 2 0 ∧
    transpose [[1, 2, 3], [4, 5, 6]] = [[1, 4], [2, 5], [3, 6]] := by
  refine ⟨(transpose_spec _).1, ?_, by decide⟩
  exact (transpose_spec [[1, 2, 3], [4, 5, 6]]).2.2.2.2 0 1 2 (by decide)
    (by decide)

end Useful
